import Mathlib

/-!
Shallow embedding of the clipboard-history logic of `kovak.py`
(repository prateekvellala/Kovak).

The embedding covers: the poll tick `check_clipboard`, the history store and
`clearHistory`, the restore path `copyToClipboard`, the search `findInList`,
the settings loader `load_settings`, and the settings-dialog `apply_changes`.
External library calls (Qt image encoding, md5, the filesystem, QUrl parsing,
the `keyboard` module) are modelled as explicit function parameters.
-/

namespace Kovak

/-- Model of a `QImage`: the pixel content as an opaque byte list plus the
null flag exposed by `isNull()`. Equality of two values compares content,
matching Qt's value semantics for images. -/
structure QImage where
  data : List Nat
  isNull : Bool
  deriving DecidableEq, Repr

/-- Clipboard history entries as built by `check_clipboard` (kovak.py lines
220-235): the tagged tuples `("text", content)`, `("urls", display)` and
`("image", label, image)`. -/
inductive Entry where
  | text (content : String)
  | urls (display : String)
  | image (label : String) (img : QImage)
  deriving DecidableEq, Repr

/-- An element of `self.history`. The poller only ever appends tagged tuples,
but `copyToClipboard` (line 318) also probes for bare strings via
`isinstance(stored, str)`, so the element type admits both shapes. -/
inductive Stored where
  | tup (e : Entry)
  | str (s : String)
  deriving DecidableEq, Repr

/-- The identifying payload of an entry: its variant tag together with the
text value, the URL display string, or the hash-derived image label. -/
def Entry.key : Entry → Nat × String
  | .text content => (0, content)
  | .urls display => (1, display)
  | .image label _ => (2, label)

/-- Structural equality of two history elements in the sense of the data
model: both are tagged tuples of the same variant with the same identifying
payload (the pixel buffer of an image is not part of its identity). -/
def StructEq (a b : Stored) : Prop :=
  ∃ e₁ e₂, a = Stored.tup e₁ ∧ b = Stored.tup e₂ ∧ e₁.key = e₂.key

/-- The display row added to the list widget for an entry: `current_data[1]`
(kovak.py line 244). -/
def Entry.rowText : Entry → String
  | .text content => content
  | .urls display => display
  | .image label _ => label

/-- The image label built at kovak.py line 220. The conversion to ARGB32,
the PNG encoding and `hashlib.md5(...).hexdigest()` are external library
calls, abstracted as the parameter `hashHex`. -/
def imageLabel (hashHex : QImage → String) (img : QImage) : String :=
  "Image which has no path (hash: " ++ hashHex img ++ ")"

/-- The `", ".join(...)` of kovak.py line 230. -/
def joinUrls : List String → String
  | [] => ""
  | [u] => u
  | u :: rest => u ++ ", " ++ joinUrls rest

/-- The clipboard mime data read at the start of a tick, already reduced to
the three probes the code performs: `hasImage` / `hasUrls` / `hasText`
(URLs already stringified by `url.toString()`). -/
structure MimeData where
  image : Option QImage
  urls : Option (List String)
  text : Option String
  deriving DecidableEq, Repr

/-- The mutable state of `ClipboardManager` relevant to the poller:
`self.history`, the rows of `self.listWidget`, and `self.previous_text`. -/
structure ClipState where
  history : List Stored
  rows : List String
  previous_text : Option Entry
  deriving DecidableEq, Repr

/-- The state after `__init__`: `self.history = []`, empty list widget,
`self.previous_text = None`. -/
def initState : ClipState := ⟨[], [], none⟩

/-- The per-element test of kovak.py line 222:
`stored[0] == "image" and stored[1] == image_path`. For a bare (nonempty)
string, `stored[0]` is its first character, a one-character string never
equal to `"image"`. -/
def isImageWithPath (p : String) : Stored → Bool
  | .tup (.image label _) => label == p
  | _ => false

/-- Kovak.py lines 238-246, the common tail of `check_clipboard` run once
`current_data` is a (truthy) tuple: skip if equal to `previous_text`; on the
first observation only record `previous_text`; otherwise append to history
and the list widget unless already present, and update `previous_text`
either way. -/
def step (s : ClipState) (current_data : Entry) : ClipState :=
  if some current_data = s.previous_text then s
  else
    match s.previous_text with
    | none => { s with previous_text := some current_data }
    | some _ =>
      if Stored.tup current_data ∈ s.history then
        { s with previous_text := some current_data }
      else
        { s with
            history := s.history ++ [Stored.tup current_data],
            rows := s.rows ++ [current_data.rowText, ""],
            previous_text := some current_data }

/-- Kovak.py lines 201-246, `ClipboardManager.check_clipboard`, one poll
tick over mime data `m`. The image branch returns early when an image entry
with the same label is already in history (lines 222-223); priority order is
image, then URL list, then text; a tick with no actionable content does
nothing. -/
def check_clipboard (hashHex : QImage → String) (s : ClipState) (m : MimeData) :
    ClipState :=
  match m.image with
  | some img =>
    let image_path := imageLabel hashHex img
    if s.history.any (isImageWithPath image_path) then s
    else step s (Entry.image image_path img)
  | none =>
    match m.urls with
    | some urls => step s (Entry.urls (joinUrls urls))
    | none =>
      match m.text with
      | some text => step s (Entry.text text)
      | none => s

/-- The classified snapshot of a tick: the `current_data` value the code
would build from the mime data, `none` when there is no actionable
content. -/
def classify (hashHex : QImage → String) (m : MimeData) : Option Entry :=
  match m.image with
  | some img => some (Entry.image (imageLabel hashHex img) img)
  | none =>
    match m.urls with
    | some urls => some (Entry.urls (joinUrls urls))
    | none =>
      match m.text with
      | some text => some (Entry.text text)
      | none => none

/-- The early-return condition of kovak.py lines 222-223: the tick observes
an image whose label already occurs in history. -/
def checkImageDup (hashHex : QImage → String) (s : ClipState) (m : MimeData) :
    Bool :=
  match m.image with
  | some img => s.history.any (isImageWithPath (imageLabel hashHex img))
  | none => false

/-- Kovak.py lines 340-343, `ClipboardManager.clearHistory`: clear the
history, clear the list widget, reset `previous_text` to `None`. -/
def clearHistory (_ : ClipState) : ClipState := ⟨[], [], none⟩

/-- States of `ClipboardManager` reachable from startup through any sequence
of poll ticks (with any clipboard contents and any hash results) and
clear-history actions. -/
inductive Reachable : ClipState → Prop where
  | init : Reachable initState
  | tick (hashHex : QImage → String) (m : MimeData) {s : ClipState} :
      Reachable s → Reachable (check_clipboard hashHex s m)
  | clear {s : ClipState} : Reachable s → Reachable (clearHistory s)

/-- Model of a `QUrl` as built in `copyToClipboard`: either parsed from the
text (`QUrl(text)` when valid) or built by `QUrl.fromLocalFile(text)`. -/
inductive QUrl where
  | parsed (s : String)
  | localFile (s : String)
  deriving DecidableEq, Repr

/-- What `copyToClipboard` writes to the system clipboard: either a pixmap
(`setPixmap`, followed by `return`) or mime data carrying a URL list and/or
plain text (`setMimeData` at the end). -/
inductive ClipWrite where
  | pixmap (img : QImage)
  | mime (urls : List QUrl) (text : Option String)
  deriving DecidableEq, Repr

/-- The external environment of `copyToClipboard`: `os.path.exists`,
`os.path.isfile`, `QUrl(...).isValid()`, and loading an image from a file
path with `QImage(text)` (a null image on failure). -/
structure Env where
  pathExists : String → Bool
  isFile : String → Bool
  urlValid : String → Bool
  loadImage : String → QImage

/-- The per-element test of the image loop at kovak.py lines 303-308: a
tuple entry tagged `"image"` whose label equals the clicked text and whose
image is non-null (a null image lets the loop continue). -/
def imageEntryMatch (text : String) : Stored → Bool
  | .tup (.image label img) => label == text && !img.isNull
  | _ => false

/-- The per-element test at kovak.py line 311: a tuple entry tagged
`"urls"` whose display string equals the clicked text. -/
def urlsEntryMatch (text : String) : Stored → Bool
  | .tup (.urls display) => display == text
  | _ => false

/-- The per-element test at kovak.py line 318: a stored element that is a
bare string (`isinstance(stored, str)`) equal to the clicked text. -/
def storedStrEq (text : String) : Stored → Bool
  | .str s => s == text
  | _ => false

/-- A tuple entry tagged `"image"` whose label equals the given text,
regardless of the null flag (used to state hypotheses about histories with
no image-label match at all). -/
def isImageLabelEq (text : String) : Stored → Bool
  | .tup (.image label _) => label == text
  | _ => false

/-- A tuple entry tagged `"text"` whose content equals the given text. -/
def textContentEq (text : String) : Stored → Bool
  | .tup (.text content) => content == text
  | _ => false

/-- Python `str.lower()` restricted to its ASCII behaviour, as a plain map
over the characters. -/
def strLower (s : String) : String := ⟨s.data.map Char.toLower⟩

/-- Helper for Python's `str.startswith` on character lists: `charsPrefix n h`
holds when `n` is an initial segment of `h`. -/
def charsPrefix : List Char → List Char → Bool
  | [], _ => true
  | _ :: _, [] => false
  | a :: as, b :: bs => a == b && charsPrefix as bs

/-- Python's `needle in hay` on character lists: some tail of `hay` starts
with `needle`. -/
def charsContains (hay needle : List Char) : Bool :=
  match hay with
  | [] => charsPrefix needle []
  | c :: t => charsPrefix needle (c :: t) || charsContains t needle

/-- Python's `str.endswith` for a single suffix. -/
def strEndsWith (s p : String) : Bool :=
  charsPrefix p.data.reverse s.data.reverse

/-- The raster-image extensions tested at kovak.py line 323. -/
def imageExts : List String := [".png", ".jpg", ".jpeg", ".bmp", ".gif"]

/-- Kovak.py lines 299-337, `ClipboardManager.copyToClipboard` on the
clicked row's text, returning what lands on the clipboard: first image
entry with matching label and non-null image wins as a pixmap; else a
matching urls entry produces a one-element URL list (parsed when valid,
local-file otherwise); else a bare-string element equal to the text
produces plain text; else an existing regular file path is written as an
image (known raster extension, loadable) or a local-file URL; else the raw
text is written as plain text. -/
def copyToClipboard (env : Env) (history : List Stored) (text : String) :
    ClipWrite :=
  match history.find? (imageEntryMatch text) with
  | some (.tup (.image _ img)) => ClipWrite.pixmap img
  | _ =>
    if history.any (urlsEntryMatch text) then
      let url := if env.urlValid text then QUrl.parsed text
                 else QUrl.localFile text
      ClipWrite.mime [url] none
    else if history.any (storedStrEq text) then
      ClipWrite.mime [] (some text)
    else if env.pathExists text && env.isFile text then
      if imageExts.any (fun ext => strEndsWith (strLower text) ext) then
        let image := env.loadImage text
        if !image.isNull then ClipWrite.pixmap image
        else ClipWrite.mime [QUrl.localFile text] none
      else ClipWrite.mime [QUrl.localFile text] none
    else ClipWrite.mime [] (some text)

/-- The first index holding `true`, modelling the `first_match` flag and
the single `scrollToItem` call of `findInList` (kovak.py lines 275-285). -/
def firstTrueIdx : List Bool → Option Nat
  | [] => none
  | b :: rest => if b then some 0 else (firstTrueIdx rest).map (· + 1)

/-- Kovak.py lines 273-288, `ClipboardManager.findInList`: lowercase the
query, mark each list-widget row by whether its lowercased text contains
the query as a substring, and report the index of the first marked row
(the one scrolled into view), if any. -/
def findInList (rows : List String) (query : String) : List Bool × Option Nat :=
  let search_term := strLower query
  let marks := rows.map (fun r => charsContains (strLower r).data search_term.data)
  (marks, firstTrueIdx marks)

/-- A JSON value, as produced by `json.load`. -/
inductive Json where
  | null
  | bool (b : Bool)
  | num (n : Int)
  | str (s : String)
  | arr (xs : List Json)
  | obj (kvs : List (String × Json))

/-- The observable state of the settings file as far as `load_settings` is
concerned: missing (`FileNotFoundError`), unparsable (`json.JSONDecodeError`),
or holding some JSON value. -/
inductive FileState where
  | missing
  | unparsable
  | parsed (j : Json)

/-- The `default_settings` object of kovak.py line 35. -/
def default_settings : Json := Json.obj [("hotkey", Json.str "shift+space")]

/-- Kovak.py lines 34-44, `load_settings`: return the parsed JSON value,
or the default object when the file is missing or fails to parse. -/
def load_settings : FileState → Json
  | .missing => default_settings
  | .unparsable => default_settings
  | .parsed j => j

/-- The claimed result shape for loaded settings: a JSON object binding the
key `"hotkey"` to a string. Stated from the claim's words, to be compared
with what `load_settings` actually returns. -/
def hasHotkeyStringShape : Json → Prop
  | .obj kvs => ∃ s, ("hotkey", Json.str s) ∈ kvs
  | _ => False

/-- The state touched by the settings dialog: the `keyboard` module's table
of registered hotkeys, the in-memory `settings["hotkey"]`, and the hotkey
value persisted in `settings.json` (`none` before the first save). -/
structure HotkeyState where
  hotkeys : List String
  settings_hotkey : String
  file_hotkey : Option String
  deriving DecidableEq, Repr

/-- The user-visible outcome of `SettingsDialog.apply_changes`: the
informational same-hotkey message, a successful apply, or the invalid-hotkey
error dialog. -/
inductive ApplyResult where
  | infoSameHotkey
  | applied
  | errorInvalidHotkey
  deriving DecidableEq, Repr

/-- Kovak.py lines 142-148, `ClipboardManager.update_hotkey`: unregister
the old hotkey if still registered, store the new hotkey in settings, save
the settings file, and start a fresh hotkey thread (which registers the new
hotkey). -/
def update_hotkey (st : HotkeyState) (new_hotkey : String) : HotkeyState :=
  let hotkeys :=
    if st.settings_hotkey ∈ st.hotkeys then st.hotkeys.erase st.settings_hotkey
    else st.hotkeys
  { hotkeys := hotkeys ++ [new_hotkey],
    settings_hotkey := new_hotkey,
    file_hotkey := some new_hotkey }

/-- Kovak.py lines 88-105, `SettingsDialog.apply_changes` on the entered
hotkey: an unchanged hotkey shows an informational message and returns
without touching anything; otherwise the `keyboard.add_hotkey` probe either
raises `ValueError` (invalid syntax, state untouched) or succeeds, after
which the probe binding and the current binding are removed and
`update_hotkey` commits the new one. -/
def apply_changes (parseable : String → Bool) (st : HotkeyState)
    (new_hotkey : String) : ApplyResult × HotkeyState :=
  if new_hotkey == st.settings_hotkey then (ApplyResult.infoSameHotkey, st)
  else if parseable new_hotkey then
    let probed := { st with
      hotkeys := ((st.hotkeys ++ [new_hotkey]).erase new_hotkey).erase
        st.settings_hotkey }
    (ApplyResult.applied, update_hotkey probed new_hotkey)
  else (ApplyResult.errorInvalidHotkey, st)

/-! Helper lemmas. -/

theorem step_previous_text (s : ClipState) (d : Entry)
    (h : some d ≠ s.previous_text) : (step s d).previous_text = some d := by
  unfold step
  split
  · next heq => exact absurd heq h
  · split
    · rfl
    · split <;> rfl

theorem check_clipboard_fresh (hashHex : QImage → String) (m : MimeData)
    (d : Entry) (r : List String) (hc : classify hashHex m = some d) :
    check_clipboard hashHex ⟨[], r, none⟩ m = ⟨[], r, some d⟩ := by
  obtain ⟨mi, mu, mt⟩ := m
  cases mi with
  | some img =>
    simp only [classify, Option.some.injEq] at hc
    subst hc
    simp [check_clipboard, step]
  | none =>
    cases mu with
    | some urls =>
      simp only [classify, Option.some.injEq] at hc
      subst hc
      simp [check_clipboard, step]
    | none =>
      cases mt with
      | some t =>
        simp only [classify, Option.some.injEq] at hc
        subst hc
        simp [check_clipboard, step]
      | none => simp [classify] at hc

/-- C1: after `clearHistory`, History is empty and `previous_text` is unset;
on the next tick, any classified snapshot (in particular one equal to the
pre-clear clipboard content) is treated as a first observation: it becomes
`previous_text` and is not appended, so History stays empty. -/
theorem clearHistory_resets_baseline (hashHex : QImage → String)
    (s : ClipState) (m : MimeData) (d : Entry)
    (hc : classify hashHex m = some d) :
    (clearHistory s).history = [] ∧ (clearHistory s).previous_text = none ∧
    (check_clipboard hashHex (clearHistory s) m).history = [] ∧
    (check_clipboard hashHex (clearHistory s) m).previous_text = some d := by
  have h : check_clipboard hashHex (clearHistory s) m = ⟨[], [], some d⟩ :=
    check_clipboard_fresh hashHex m d [] hc
  exact ⟨rfl, rfl, by rw [h], by rw [h]⟩

/-- Witness for C1: History was `[("text", "A")]`, `clear()` ran, the
clipboard still classifies as `("text", "A")`; after the tick History is
still empty. -/
theorem clearHistory_resets_baseline_witness :
    classify (fun _ => "") ⟨none, none, some "A"⟩ = some (Entry.text "A") ∧
    (check_clipboard (fun _ => "")
      (clearHistory ⟨[Stored.tup (Entry.text "A")], ["A", ""],
        some (Entry.text "A")⟩)
      ⟨none, none, some "A"⟩).history = [] :=
  ⟨rfl, (clearHistory_resets_baseline (fun _ => "")
    ⟨[Stored.tup (Entry.text "A")], ["A", ""], some (Entry.text "A")⟩
    ⟨none, none, some "A"⟩ (Entry.text "A") rfl).2.2.1⟩

/-- C3: on the first tick ever to observe actionable content
(`previous_text` unset, History empty), the classified snapshot is recorded
as `previous_text` but not appended: History is still empty after the
tick. -/
theorem first_observation_not_appended (hashHex : QImage → String)
    (s : ClipState) (m : MimeData) (d : Entry)
    (hprev : s.previous_text = none) (hhist : s.history = [])
    (hc : classify hashHex m = some d) :
    (check_clipboard hashHex s m).history = [] ∧
    (check_clipboard hashHex s m).previous_text = some d := by
  obtain ⟨hist, rows, prev⟩ := s
  dsimp only at hprev hhist
  subst hprev
  subst hhist
  have h := check_clipboard_fresh hashHex m d rows hc
  rw [h]
  exact ⟨rfl, rfl⟩

/-- Witness for C3: the clipboard already holds `"hello"` when polling
starts; `"hello"` is absent from History after the first tick. -/
theorem first_observation_not_appended_witness :
    initState.previous_text = none ∧ initState.history = [] ∧
    (check_clipboard (fun _ => "") initState
      ⟨none, none, some "hello"⟩).history = [] :=
  ⟨rfl, rfl, (first_observation_not_appended (fun _ => "") initState
    ⟨none, none, some "hello"⟩ (Entry.text "hello") rfl rfl rfl).1⟩

/-- C4 counterexample: an image tick whose label is already in History is a
complete no-op (kovak.py lines 222-223), so `previous_text` is NOT updated
even though the classified snapshot differs from it — refuting the claim
for the image variant. -/
theorem previous_text_not_updated_on_image_dup :
    classify (fun _ => "h") ⟨some ⟨[0], false⟩, none, none⟩
      = some (Entry.image (imageLabel (fun _ => "h") ⟨[0], false⟩)
          ⟨[0], false⟩) ∧
    some (Entry.image (imageLabel (fun _ => "h") ⟨[0], false⟩) ⟨[0], false⟩)
      ≠ (⟨[Stored.tup (Entry.image (imageLabel (fun _ => "h") ⟨[0], false⟩)
            ⟨[0], false⟩)], [], some (Entry.text "x")⟩ : ClipState).previous_text ∧
    (check_clipboard (fun _ => "h")
      ⟨[Stored.tup (Entry.image (imageLabel (fun _ => "h") ⟨[0], false⟩)
          ⟨[0], false⟩)], [], some (Entry.text "x")⟩
      ⟨some ⟨[0], false⟩, none, none⟩).previous_text
      = some (Entry.text "x") := by
  refine ⟨rfl, ?_, ?_⟩ <;> decide

/-- C4 amended: for every tick whose classified snapshot differs from
`previous_text`, except an image tick whose label already occurs in History
(a complete no-op), `previous_text` is updated to the snapshot at the end
of the tick — in particular even when the append is suppressed because the
snapshot is already in History. -/
theorem previous_text_updated_unless_image_dup (hashHex : QImage → String)
    (s : ClipState) (m : MimeData) (d : Entry)
    (hc : classify hashHex m = some d)
    (hne : some d ≠ s.previous_text)
    (hdup : checkImageDup hashHex s m = false) :
    (check_clipboard hashHex s m).previous_text = some d := by
  obtain ⟨mi, mu, mt⟩ := m
  cases mi with
  | some img =>
    simp only [classify, Option.some.injEq] at hc
    subst hc
    simp only [checkImageDup] at hdup
    simp only [check_clipboard, hdup, Bool.false_eq_true, if_false]
    exact step_previous_text s _ hne
  | none =>
    cases mu with
    | some urls =>
      simp only [classify, Option.some.injEq] at hc
      subst hc
      exact step_previous_text s _ hne
    | none =>
      cases mt with
      | some t =>
        simp only [classify, Option.some.injEq] at hc
        subst hc
        exact step_previous_text s _ hne
      | none => simp [classify] at hc

/-- Witness for the amended C4: a duplicate-in-History text snapshot that
differs from `previous_text` still updates `previous_text`. -/
theorem previous_text_updated_unless_image_dup_witness :
    (check_clipboard (fun _ => "")
      ⟨[Stored.tup (Entry.text "B")], ["B", ""], some (Entry.text "A")⟩
      ⟨none, none, some "B"⟩).previous_text = some (Entry.text "B") :=
  previous_text_updated_unless_image_dup (fun _ => "")
    ⟨[Stored.tup (Entry.text "B")], ["B", ""], some (Entry.text "A")⟩
    ⟨none, none, some "B"⟩ (Entry.text "B") rfl (by decide) rfl

/-- C6 counterexample: when the settings file parses as the JSON array `[]`,
`load_settings` returns that array unchanged, which is not an object binding
`"hotkey"` to a string — refuting the claimed result shape. -/
theorem load_settings_shape_counterexample :
    load_settings (FileState.parsed (Json.arr [])) = Json.arr [] ∧
    ¬ hasHotkeyStringShape (load_settings (FileState.parsed (Json.arr []))) :=
  ⟨rfl, fun h => h⟩

/-- C6 amended: `load_settings` returns without raising in every file
state; it returns the default object on a missing or unparsable file, and
returns the parsed JSON value unchanged (whatever its shape) otherwise. -/
theorem load_settings_amended :
    load_settings FileState.missing = default_settings ∧
    load_settings FileState.unparsable = default_settings ∧
    ∀ j : Json, load_settings (FileState.parsed j) = j :=
  ⟨rfl, rfl, fun _ => rfl⟩

/-- C9: applying a hotkey equal to the current one reports the
informational same-hotkey message and leaves the registered bindings, the
in-memory settings, and the persisted file untouched. -/
theorem apply_changes_same_hotkey_noop (parseable : String → Bool)
    (st : HotkeyState) (new_hotkey : String)
    (h : new_hotkey = st.settings_hotkey) :
    apply_changes parseable st new_hotkey = (ApplyResult.infoSameHotkey, st) := by
  subst h
  simp [apply_changes]

/-- Witness for C9 at the default hotkey. -/
theorem apply_changes_same_hotkey_noop_witness :
    apply_changes (fun _ => true)
      ⟨["shift+space"], "shift+space", some "shift+space"⟩ "shift+space"
      = (ApplyResult.infoSameHotkey,
        ⟨["shift+space"], "shift+space", some "shift+space"⟩) :=
  apply_changes_same_hotkey_noop (fun _ => true)
    ⟨["shift+space"], "shift+space", some "shift+space"⟩ "shift+space" rfl

theorem find_image_none (history : List Stored) (text : String)
    (himg : ∀ st ∈ history, isImageLabelEq text st = false) :
    history.find? (imageEntryMatch text) = none := by
  rw [List.find?_eq_none]
  intro st hst
  have h := himg st hst
  cases st with
  | str s => simp [imageEntryMatch]
  | tup e =>
    cases e with
    | text c => simp [imageEntryMatch]
    | urls u => simp [imageEntryMatch]
    | image l i =>
      simp only [isImageLabelEq] at h
      simp [imageEntryMatch, h]

/-- C8: a clicked row text matching no image label, no urls display, no
text-entry content, and naming no existing regular file is written back as
plain text — the fallback of kovak.py line 335 — so every row is copyable
in some form. -/
theorem copy_fallback_plain_text (env : Env) (history : List Stored)
    (text : String)
    (himg : ∀ st ∈ history, isImageLabelEq text st = false)
    (hurls : ∀ st ∈ history, urlsEntryMatch text st = false)
    (_htext : ∀ st ∈ history, textContentEq text st = false)
    (hfile : (env.pathExists text && env.isFile text) = false) :
    copyToClipboard env history text = ClipWrite.mime [] (some text) := by
  have hfind := find_image_none history text himg
  have hany : history.any (urlsEntryMatch text) = false :=
    List.any_eq_false.mpr fun st hst => by simp [hurls st hst]
  cases hstr : history.any (storedStrEq text) with
  | true => simp [copyToClipboard, hfind, hany, hstr]
  | false => simp [copyToClipboard, hfind, hany, hstr, hfile]

/-- Witness for C8: restoring the row `"not a real path"` from a history
holding an unrelated text entry yields plain text `"not a real path"`. -/
theorem copy_fallback_plain_text_witness :
    copyToClipboard ⟨fun _ => false, fun _ => false, fun _ => false,
        fun _ => ⟨[], true⟩⟩
      [Stored.tup (Entry.text "keep this")] "not a real path"
      = ClipWrite.mime [] (some "not a real path") :=
  copy_fallback_plain_text
    ⟨fun _ => false, fun _ => false, fun _ => false, fun _ => ⟨[], true⟩⟩
    [Stored.tup (Entry.text "keep this")] "not a real path"
    (by decide) (by decide) (by decide) rfl

/-- C5 counterexample: History holds the text entry `"/tmp/f.txt"` and the
clicked row text equals that content, yet — because the stored-entry test
at kovak.py line 318 only matches bare strings, never tuples — when the
text names an existing regular file the restore reaches the file-path
interpretation and writes a single-file URL reference instead of plain
text. -/
theorem text_entry_file_path_reaches_step4 :
    textContentEq "/tmp/f.txt" (Stored.tup (Entry.text "/tmp/f.txt")) = true ∧
    copyToClipboard
      ⟨fun s => s == "/tmp/f.txt", fun s => s == "/tmp/f.txt",
        fun _ => false, fun _ => ⟨[], true⟩⟩
      [Stored.tup (Entry.text "/tmp/f.txt")] "/tmp/f.txt"
      = ClipWrite.mime [QUrl.localFile "/tmp/f.txt"] none := by
  refine ⟨rfl, ?_⟩
  decide

/-- C5 amended: when a Text entry's content equals the clicked row text (and
no image label or urls display matches), the text is written back as plain
text only if it does not name an existing regular file — via the fallback,
since the stored-entry test of line 318 matches no tuple entry; if it does
name an existing regular file (without a raster-image extension), the
file-path interpretation of step 4 is reached instead. -/
theorem text_entry_restore_plain_text_unless_file (env : Env)
    (history : List Stored) (text : String)
    (himg : ∀ st ∈ history, isImageLabelEq text st = false)
    (hurls : ∀ st ∈ history, urlsEntryMatch text st = false)
    (_htext : Stored.tup (Entry.text text) ∈ history) :
    ((env.pathExists text && env.isFile text) = false →
      copyToClipboard env history text = ClipWrite.mime [] (some text)) ∧
    ((env.pathExists text && env.isFile text) = true →
      (∀ st ∈ history, storedStrEq text st = false) →
      imageExts.any (fun ext => strEndsWith (strLower text) ext) = false →
      copyToClipboard env history text
        = ClipWrite.mime [QUrl.localFile text] none) := by
  have hfind := find_image_none history text himg
  have hany : history.any (urlsEntryMatch text) = false :=
    List.any_eq_false.mpr fun st hst => by simp [hurls st hst]
  constructor
  · intro hfile
    cases hstr : history.any (storedStrEq text) with
    | true => simp [copyToClipboard, hfind, hany, hstr]
    | false => simp [copyToClipboard, hfind, hany, hstr, hfile]
  · intro hfile hstrall hext
    have hstr : history.any (storedStrEq text) = false :=
      List.any_eq_false.mpr fun st hst => by simp [hstrall st hst]
    simp [copyToClipboard, hfind, hany, hstr, hfile, hext]

/-- Witness for the amended C5: restoring the text entry `"hello"`, which
names no existing file, yields plain text `"hello"`. -/
theorem text_entry_restore_plain_text_unless_file_witness :
    copyToClipboard ⟨fun _ => false, fun _ => false, fun _ => false,
        fun _ => ⟨[], true⟩⟩
      [Stored.tup (Entry.text "hello")] "hello"
      = ClipWrite.mime [] (some "hello") :=
  (text_entry_restore_plain_text_unless_file
    ⟨fun _ => false, fun _ => false, fun _ => false, fun _ => ⟨[], true⟩⟩
    [Stored.tup (Entry.text "hello")] "hello"
    (by decide) (by decide) (by decide)).1 rfl

theorem charsPrefix_iff (n h : List Char) :
    charsPrefix n h = true ↔ ∃ t, n ++ t = h := by
  induction n generalizing h with
  | nil => simp [charsPrefix]
  | cons a as ih =>
    cases h with
    | nil => simp [charsPrefix]
    | cons b bs =>
      simp [charsPrefix, Bool.and_eq_true, beq_iff_eq, ih, List.cons_append,
        List.cons.injEq, exists_and_left]

theorem charsContains_iff (hay needle : List Char) :
    charsContains hay needle = true ↔ ∃ s t, s ++ needle ++ t = hay := by
  induction hay with
  | nil =>
    simp [charsContains, charsPrefix_iff, List.append_eq_nil]
  | cons c t ih =>
    simp only [charsContains, Bool.or_eq_true, charsPrefix_iff, ih]
    constructor
    · rintro (⟨u, hu⟩ | ⟨s, u, hu⟩)
      · exact ⟨[], u, by simpa using hu⟩
      · exact ⟨c :: s, u, by simp [hu]⟩
    · rintro ⟨s, u, hu⟩
      cases s with
      | nil => exact Or.inl ⟨u, by simpa using hu⟩
      | cons x xs =>
        simp only [List.cons_append, List.cons.injEq] at hu
        exact Or.inr ⟨xs, u, hu.2⟩

theorem charsContains_empty (hay : List Char) :
    charsContains hay [] = true := by
  cases hay <;> simp [charsContains, charsPrefix]

theorem getD_map_eq (f : String → Bool) (l : List String) (i : Nat)
    (h : i < l.length) :
    (l.map f).getD i false = f (l.getD i "") := by
  induction l generalizing i with
  | nil => simp at h
  | cons a t ih =>
    cases i with
    | zero => rfl
    | succ i' =>
      simp only [List.map_cons, List.getD_cons_succ]
      exact ih i' (Nat.lt_of_succ_lt_succ h)

theorem firstTrueIdx_spec (l : List Bool) (j : Nat)
    (h : firstTrueIdx l = some j) :
    j < l.length ∧ l.getD j false = true ∧
      ∀ k, k < j → l.getD k false = false := by
  induction l generalizing j with
  | nil => simp [firstTrueIdx] at h
  | cons b rest ih =>
    cases b with
    | true =>
      simp only [firstTrueIdx, if_true, Option.some.injEq] at h
      subst h
      exact ⟨Nat.succ_pos _, rfl, fun k hk => absurd hk (Nat.not_lt_zero k)⟩
    | false =>
      simp only [firstTrueIdx, Bool.false_eq_true, if_false] at h
      cases hf : firstTrueIdx rest with
      | none => rw [hf] at h; simp at h
      | some j' =>
        rw [hf] at h
        simp at h
        subst h
        obtain ⟨h1, h2, h3⟩ := ih j' hf
        refine ⟨Nat.succ_lt_succ h1, h2, fun k hk => ?_⟩
        cases k with
        | zero => rfl
        | succ k' => exact h3 k' (Nat.lt_of_succ_lt_succ hk)

/-- C7: `findInList` marks one row per presentation row; a row is marked
exactly when its lowercased text contains the lowercased query as a
substring (so the empty query marks every row); the reported scroll index,
when present, is the first marked row in display order; and on the rows
`["apple", "banana", "Apple Pie"]` the query `"apple"` marks rows 0 and 2
with first-match index 0. -/
theorem findInList_spec (rows : List String) (query : String) :
    (findInList rows query).1.length = rows.length ∧
    (∀ i, i < rows.length →
      ((findInList rows query).1.getD i false = true ↔
        ∃ s t, s ++ (strLower query).data ++ t
          = (strLower (rows.getD i "")).data)) ∧
    (query = "" → ∀ b ∈ (findInList rows query).1, b = true) ∧
    (∀ j, (findInList rows query).2 = some j →
      j < rows.length ∧ (findInList rows query).1.getD j false = true ∧
        ∀ k, k < j → (findInList rows query).1.getD k false = false) ∧
    (findInList ["apple", "banana", "Apple Pie"] "apple").1
      = [true, false, true] ∧
    (findInList ["apple", "banana", "Apple Pie"] "apple").2 = some 0 := by
  refine ⟨by simp [findInList], ?_, ?_, ?_, by decide, by decide⟩
  · intro i hi
    have h : (findInList rows query).1.getD i false
        = charsContains (strLower (rows.getD i "")).data
            (strLower query).data :=
      getD_map_eq
        (fun r => charsContains (strLower r).data (strLower query).data)
        rows i hi
    rw [h, charsContains_iff]
  · rintro rfl b hb
    simp only [findInList, List.mem_map] at hb
    obtain ⟨r, _, rfl⟩ := hb
    exact charsContains_empty _
  · intro j hj
    have h := firstTrueIdx_spec _ j hj
    refine ⟨?_, h.2.1, h.2.2⟩
    have hl : (findInList rows query).1.length = rows.length := by
      simp [findInList]
    rw [← hl]
    exact h.1

/-- Witness instantiating C7 at the spec's concrete example. -/
theorem findInList_spec_witness :
    (findInList ["apple", "banana", "Apple Pie"] "apple").1.length = 3 :=
  (findInList_spec ["apple", "banana", "Apple Pie"] "apple").1

theorem key_eq_text (e : Entry) (c : String) (h : e.key = (0, c)) :
    e = Entry.text c := by
  cases e with
  | text c' => simp only [Entry.key, Prod.mk.injEq] at h; rw [h.2]
  | urls d => simp [Entry.key] at h
  | image l i => simp [Entry.key] at h

theorem key_eq_urls (e : Entry) (d : String) (h : e.key = (1, d)) :
    e = Entry.urls d := by
  cases e with
  | text c' => simp [Entry.key] at h
  | urls d' => simp only [Entry.key, Prod.mk.injEq] at h; rw [h.2]
  | image l i => simp [Entry.key] at h

theorem key_eq_image (e : Entry) (l : String) (h : e.key = (2, l)) :
    ∃ i, e = Entry.image l i := by
  cases e with
  | text c' => simp [Entry.key] at h
  | urls d' => simp [Entry.key] at h
  | image l' i =>
    simp only [Entry.key, Prod.mk.injEq] at h
    exact ⟨i, by rw [h.2]⟩

theorem step_pairwise (s : ClipState) (d : Entry)
    (hd : ∀ st ∈ s.history, StructEq st (Stored.tup d) →
      Stored.tup d ∈ s.history)
    (hp : s.history.Pairwise fun a b => ¬ StructEq a b) :
    (step s d).history.Pairwise fun a b => ¬ StructEq a b := by
  unfold step
  split
  · exact hp
  · split
    · exact hp
    · split
      · exact hp
      · next hmem =>
        show ((s.history ++ [Stored.tup d]).Pairwise fun a b => ¬ StructEq a b)
        rw [List.pairwise_append]
        refine ⟨hp, List.pairwise_singleton _ _, ?_⟩
        intro a ha b hb
        simp only [List.mem_singleton] at hb
        subst hb
        intro hse
        exact hmem (hd a ha hse)

theorem check_clipboard_pairwise (hashHex : QImage → String) (s : ClipState)
    (m : MimeData)
    (hp : s.history.Pairwise fun a b => ¬ StructEq a b) :
    (check_clipboard hashHex s m).history.Pairwise
      fun a b => ¬ StructEq a b := by
  obtain ⟨mi, mu, mt⟩ := m
  cases mi with
  | some img =>
    simp only [check_clipboard]
    split
    · exact hp
    · next hany =>
      apply step_pairwise s _ ?_ hp
      intro st hst hse
      exfalso
      obtain ⟨e₁, e₂, rfl, he₂, hkey⟩ := hse
      have he : e₂ = Entry.image (imageLabel hashHex img) img :=
        (Stored.tup.injEq _ _).mp he₂.symm
      subst he
      obtain ⟨i, rfl⟩ := key_eq_image e₁ _ (by rw [hkey]; rfl)
      exact hany (List.any_eq_true.mpr
        ⟨Stored.tup (Entry.image (imageLabel hashHex img) i), hst,
          by simp [isImageWithPath]⟩)
  | none =>
    cases mu with
    | some urls =>
      apply step_pairwise s _ ?_ hp
      intro st hst hse
      obtain ⟨e₁, e₂, rfl, he₂, hkey⟩ := hse
      have he : e₂ = Entry.urls (joinUrls urls) :=
        (Stored.tup.injEq _ _).mp he₂.symm
      subst he
      have h1 : e₁ = Entry.urls (joinUrls urls) :=
        key_eq_urls e₁ _ (by rw [hkey]; rfl)
      subst h1
      exact hst
    | none =>
      cases mt with
      | some t =>
        apply step_pairwise s _ ?_ hp
        intro st hst hse
        obtain ⟨e₁, e₂, rfl, he₂, hkey⟩ := hse
        have he : e₂ = Entry.text t := (Stored.tup.injEq _ _).mp he₂.symm
        subst he
        have h1 : e₁ = Entry.text t := key_eq_text e₁ _ (by rw [hkey]; rfl)
        subst h1
        exact hst
      | none => exact hp

/-- C2: in every reachable state, no two structurally equal entries (same
variant and same identifying payload — text value, URL display string, or
hash-derived image label) are simultaneously present in History. -/
theorem history_no_structural_dup (s : ClipState) (hs : Reachable s) :
    s.history.Pairwise fun a b => ¬ StructEq a b := by
  induction hs with
  | init => exact List.Pairwise.nil
  | tick hashHex m hr ih => exact check_clipboard_pairwise hashHex _ m ih
  | clear hr ih => exact List.Pairwise.nil

/-- Witness for C2: observing `"B"` then `"A"` twice in a row leaves
exactly one History entry for `"A"`, and that history is duplicate-free. -/
theorem history_no_structural_dup_witness :
    (check_clipboard (fun _ => "") (check_clipboard (fun _ => "")
        (check_clipboard (fun _ => "") initState ⟨none, none, some "B"⟩)
        ⟨none, none, some "A"⟩) ⟨none, none, some "A"⟩).history
      = [Stored.tup (Entry.text "A")] ∧
    ((check_clipboard (fun _ => "") (check_clipboard (fun _ => "")
        (check_clipboard (fun _ => "") initState ⟨none, none, some "B"⟩)
        ⟨none, none, some "A"⟩) ⟨none, none, some "A"⟩).history.Pairwise
      fun a b => ¬ StructEq a b) := by
  refine ⟨by decide, ?_⟩
  exact history_no_structural_dup _
    (Reachable.tick (fun _ => "") ⟨none, none, some "A"⟩
      (Reachable.tick (fun _ => "") ⟨none, none, some "A"⟩
        (Reachable.tick (fun _ => "") ⟨none, none, some "B"⟩ Reachable.init)))

theorem step_all_tuples (s : ClipState) (d : Entry)
    (h : ∀ st ∈ s.history, ∃ e, st = Stored.tup e) :
    ∀ st ∈ (step s d).history, ∃ e, st = Stored.tup e := by
  unfold step
  split
  · exact h
  · split
    · exact h
    · split
      · exact h
      · intro st hst
        rcases List.mem_append.mp hst with h1 | h2
        · exact h st h1
        · simp only [List.mem_singleton] at h2
          exact ⟨d, h2⟩

theorem check_clipboard_all_tuples (hashHex : QImage → String)
    (s : ClipState) (m : MimeData)
    (h : ∀ st ∈ s.history, ∃ e, st = Stored.tup e) :
    ∀ st ∈ (check_clipboard hashHex s m).history, ∃ e, st = Stored.tup e := by
  obtain ⟨mi, mu, mt⟩ := m
  cases mi with
  | some img =>
    simp only [check_clipboard]
    split
    · exact h
    · exact step_all_tuples s _ h
  | none =>
    cases mu with
    | some urls => exact step_all_tuples s _ h
    | none =>
      cases mt with
      | some t => exact step_all_tuples s _ h
      | none => exact h

/-- C10: in every reachable state, every element of History is a tagged
tuple of one of the three entry shapes, never a bare string; consequently
the plain-string probe of `copyToClipboard` (kovak.py line 318) matches no
element of History. -/
theorem history_entries_are_tagged_tuples (s : ClipState) (hs : Reachable s) :
    (∀ st ∈ s.history, ∃ e, st = Stored.tup e) ∧
    ∀ text : String, s.history.any (storedStrEq text) = false := by
  have h1 : ∀ st ∈ s.history, ∃ e, st = Stored.tup e := by
    induction hs with
    | init => intro st hst; simp [initState] at hst
    | tick hashHex m hr ih => exact check_clipboard_all_tuples hashHex _ m ih
    | clear hr ih => intro st hst; simp [clearHistory] at hst
  refine ⟨h1, fun text => List.any_eq_false.mpr fun st hst => ?_⟩
  obtain ⟨e, rfl⟩ := h1 st hst
  simp [storedStrEq]

/-- Witness for C10: after a text tick and a URL-list tick, the
plain-string probe matches nothing, not even the row text of the stored
urls entry. -/
theorem history_entries_are_tagged_tuples_witness :
    (check_clipboard (fun _ => "") (check_clipboard (fun _ => "")
        initState ⟨none, none, some "x"⟩)
        ⟨none, some ["https://a", "https://b"], none⟩).history.any
      (storedStrEq "https://a, https://b") = false :=
  (history_entries_are_tagged_tuples _
    (Reachable.tick (fun _ => "") ⟨none, some ["https://a", "https://b"], none⟩
      (Reachable.tick (fun _ => "") ⟨none, none, some "x"⟩
        Reachable.init))).2 "https://a, https://b"

end Kovak
